import Mathlib

/-!
Shallow embedding of the packed ABI codec of `abigo` (files `encode_packed.go`
and the decoder file `decode` counterpart, package `abi`).

Bytes are modelled as `List Nat` (each entry a byte value), Go's `*big.Int`
as `Int`, Go strings as Lean `String` (the codec paths exercised here are
ASCII; a comment marks the one place where Go's byte-based string slicing is
modelled over characters).  Fallible Go functions returning `(..., error)`
are modelled with `Except`; a Go runtime panic is modelled by a dedicated
result constructor (`EncResult.crash`, `DecErr.indexOutOfRange`,
`DecErr.divideByZero`).
-/

/-- The type-descriptor tree.  Mirrors the external `*Type` contract used by
the codec: a `Kind` discriminator, a `Size`, an `Elem` child for containers,
and named `TupleElems` for tuples (spec section 3 / section 6). -/
inductive Ty where
  | slice (elem : Ty)
  | array (size : Nat) (elem : Ty)
  | tuple (elems : List (String × Ty))
  | str
  | bool
  | address
  | int (size : Nat)
  | uint (size : Nat)
  | bytes
  | fixedBytes (size : Nat)
  | function

/-- The `Type.Size()` accessor of the external descriptor.  Modelled from the spec: the
descriptor is constructed externally (spec section 3: bit-width for
numeric kinds, byte length for fixed-byte kinds, element count for fixed
arrays; kinds without a declared size report 0), and per spec section 4.2
an Address occupies 20 bytes and a Function value 24 bytes. -/
def Ty.tSize : Ty → Nat
  | .slice _ => 0
  | .array n _ => n
  | .tuple _ => 0
  | .str => 0
  | .bool => 0
  | .address => 20
  | .int w => w
  | .uint w => w
  | .bytes => 0
  | .fixedBytes n => n
  | .function => 24

/-- The tagged union of runtime values accepted by the encoder and produced
by the decoder (the Go side passes `interface{}` / `reflect.Value`).
`goUint`/`goInt` carry a native fixed-width Go integer together with the
width of its Go type (8/16/32/64; plain `int`/`uint` are 64); `bigInt` is a
`*big.Int`; `float` is a `float64` represented by its truncation toward
zero, which is all `encodeNumPacked` observes of it (`int64(v.Float())`);
`list` is a Go slice of values, `arr` a Go array of values; `bytes` a Go
`[]byte`, `fixedBytes` a Go `[N]byte`, `addr` an `ethgo.Address`
(`[20]byte`), `func` a `[24]byte` function value; `map` is a Go
`map[string]interface{}` given as its key-value pairs (a Go struct input is
first converted to such a map by `mapFromStruct`). -/
inductive Val where
  | bool (b : Bool)
  | goUint (w : Nat) (n : Nat)
  | goInt (w : Nat) (n : Int)
  | bigInt (n : Int)
  | float (trunc : Int)
  | str (s : String)
  | bytes (bs : List Nat)
  | fixedBytes (bs : List Nat)
  | addr (bs : List Nat)
  | func (bs : List Nat)
  | list (vs : List Val)
  | arr (vs : List Val)
  | map (kvs : List (String × Val))

/-- Result of an encode call: the output bytes, a returned Go `error`, or a
Go runtime panic. -/
inductive EncResult where
  | ok (bs : List Nat)
  | err
  | crash
deriving DecidableEq

/-- Big-endian minimal byte string of a natural number: `big.Int.Bytes()`
(empty for zero, no leading zero bytes).  The first argument is recursion
fuel; `n` itself always suffices. -/
def natBytesBEAux : Nat → Nat → List Nat
  | 0, _ => []
  | _ + 1, 0 => []
  | fuel + 1, n + 1 => natBytesBEAux fuel ((n + 1) / 256) ++ [(n + 1) % 256]

/-- Go's `big.Int.Bytes()` for a nonnegative value. -/
def natBytesBE (n : Nat) : List Nat := natBytesBEAux n n

/-- Go's `big.Int.Bytes()`: big-endian bytes of the absolute value. -/
def bigIntBytes (n : Int) : List Nat := natBytesBE n.natAbs

/-- Go's `big.Int.BitLen()`: bit length of the absolute value (0 for 0).  Fuel in
the first argument of the auxiliary; `n` suffices. -/
def bitLenAux : Nat → Nat → Nat
  | 0, _ => 0
  | _ + 1, 0 => 0
  | fuel + 1, n + 1 => bitLenAux fuel ((n + 1) / 2) + 1

/-- Go's `big.Int.BitLen()` of a nonnegative value. -/
def natBitLen (n : Nat) : Nat := bitLenAux n n

/-- Modelled from the spec: the shared padding helper `leftPad` (it lives in
the repository's shared numeric/padding helpers, outside the packed-codec
files); spec section 4.1: left-pad with zero bytes to the target length. -/
def leftPad (b : List Nat) (size : Nat) : List Nat :=
  if size ≤ b.length then b else List.replicate (size - b.length) 0 ++ b

/-- Modelled from the spec: the shared padding helper `rightPad` (shared
helper outside the packed-codec files); spec section 4.1: right-pad with
zero bytes to the target length. -/
def rightPad (b : List Nat) (size : Nat) : List Nat :=
  if size ≤ b.length then b else b ++ List.replicate (size - b.length) 0

/-- Function `toUSize` of `encode_packed.go`: reduce the value into the unsigned
range of `size` bits when it is negative or too wide (Go's
`b.And(b, 2^size - 1)` on a `big.Int` is two's-complement reduction, i.e.
`b mod 2^size`), then left-pad its bytes to `size / 8` bytes. -/
def toUSize (n : Int) (size : Nat) : List Nat :=
  let b : Int := if n < 0 ∨ size < natBitLen n.natAbs then n % ((2 : Int) ^ size) else n
  leftPad (natBytesBE b.toNat) (size / 8)

/-- Package-level constant `one = big.NewInt(1)` from the repository's
shared encoder helpers. -/
def one : Int := 1

/-- Package-level constant `zero = big.NewInt(0)` from the repository's
shared encoder helpers. -/
def zero : Int := 0

/-- Function `encodeBoolPacked`: returns `one.Bytes()` for true and `zero.Bytes()`
for false (note `big.NewInt(0).Bytes()` is the empty byte string). -/
def encodeBoolPacked (v : Val) : EncResult :=
  match v with
  | .bool b => if b then .ok (bigIntBytes one) else .ok (bigIntBytes zero)
  | _ => .err

/-- Value of a character as a digit, for `big.Int.SetString`: decimal digits
and (for base 16) hex letters of either case; digits must be below the
base. -/
def digitVal (base : Nat) (c : Char) : Option Nat :=
  let v : Option Nat :=
    if '0' ≤ c ∧ c ≤ '9' then some (c.toNat - 48)
    else if 'a' ≤ c ∧ c ≤ 'f' then some (c.toNat - 87)
    else if 'A' ≤ c ∧ c ≤ 'F' then some (c.toNat - 55)
    else none
  match v with
  | some d => if d < base then some d else none
  | none => none

/-- Digits accumulator for `big.Int.SetString`. -/
def parseDigitsAux (base : Nat) (acc : Nat) : List Char → Option Nat
  | [] => some acc
  | c :: rest =>
    match digitVal base c with
    | some d => parseDigitsAux base (acc * base + d) rest
    | none => none

/-- A nonempty all-digit string in the given base (empty input fails). -/
def parseDigits (base : Nat) : List Char → Option Nat
  | [] => none
  | cs => parseDigitsAux base 0 cs

/-- Go's `new(big.Int).SetString(s, base)` for base 10 or 16: an optional sign
followed by a nonempty run of digits of the base; anything else fails. -/
def bigIntSetString (s : String) (base : Nat) : Option Int :=
  match s.data with
  | '+' :: rest => (parseDigits base rest).map (fun n => (n : Int))
  | '-' :: rest => (parseDigits base rest).map (fun n => -(n : Int))
  | cs => (parseDigits base cs).map (fun n => (n : Int))

/-- Go string slicing `s[i:]`: defined only when `i ≤ len(s)`, otherwise the
Go runtime panics (`none` here).  Go indexes by bytes; this model indexes by
characters, which agrees on ASCII input. -/
def goStringFrom (s : String) (i : Nat) : Option String :=
  if i ≤ s.data.length then some (String.mk (s.data.drop i)) else none

/-- Recursion rank of `encodeNumPacked`: the string case recurses through a
parsed `*big.Int`, the float case through an `int64`. -/
def numRank : Val → Nat
  | .str _ => 2
  | .float _ => 1
  | _ => 0

/-- Function `encodeNumPacked` of `encode_packed.go`.  Native unsigned and signed
integers go through `toUSize(v, t.Size())`; a `*big.Int` pointer goes
through `toUSize(v, 256)` (the literal 256 is in the source); a float64
recurses as `int64(v.Float())`; a string is parsed as decimal and otherwise
as hex after dropping its first two bytes (`v.String()[2:]`, which panics
when the string is shorter than two bytes); any other shape is an error. -/
def encodeNumPacked (v : Val) (t : Ty) : EncResult :=
  match v with
  | .goUint _ n => .ok (toUSize (n : Int) t.tSize)
  | .goInt _ n => .ok (toUSize n t.tSize)
  | .bigInt n => .ok (toUSize n 256)
  | .float f => encodeNumPacked (.goInt 64 f) t
  | .str s =>
    match bigIntSetString s 10 with
    | some n => encodeNumPacked (.bigInt n) t
    | none =>
      match goStringFrom s 2 with
      | none => .crash
      | some s2 =>
        match bigIntSetString s2 16 with
        | some n => encodeNumPacked (.bigInt n) t
        | none => .err
  | _ => .err
termination_by numRank v
decreasing_by all_goals simp [numRank]

/-- A single hex digit. -/
def hexDigit (c : Char) : Option Nat := digitVal 16 c

/-- Hex digit pairs to bytes; an odd number of digits fails. -/
def hexPairs : List Char → Option (List Nat)
  | [] => some []
  | [_] => none
  | a :: b :: rest =>
    match hexDigit a, hexDigit b, hexPairs rest with
    | some x, some y, some bs => some ((x * 16 + y) :: bs)
    | _, _, _ => none

/-- Modelled from the spec: the consumed hex-decoding utility `decodeHex`
(external per spec section 1 and section 6), accepting an optional `0x`
prefix. -/
def decodeHex (s : String) : Option (List Nat) :=
  let cs := s.data
  hexPairs (if cs.take 2 = ['0', 'x'] then cs.drop 2 else cs)

/-- Function `encodeFixedBytesPacked`: a Go byte array is converted to a byte slice,
a string is hex-decoded, and the bytes are right-padded to `t.Size()`.
A value whose reflect kind supports none of these makes Go's `v.Bytes()`
panic. -/
def encodeFixedBytesPacked (v : Val) (t : Ty) : EncResult :=
  match v with
  | .fixedBytes bs => .ok (rightPad bs t.tSize)
  | .addr bs => .ok (rightPad bs t.tSize)
  | .func bs => .ok (rightPad bs t.tSize)
  | .bytes bs => .ok (rightPad bs t.tSize)
  | .str s =>
    match decodeHex s with
    | some bs => .ok (rightPad bs t.tSize)
    | none => .err
  | _ => .crash

/-- Modelled from the spec: `ethgo.Address.UnmarshalText` (external per spec
section 1: construction of 20-byte address values from text): hex text,
optionally `0x`-prefixed, denoting exactly 20 bytes. -/
def addrUnmarshalText (s : String) : Option (List Nat) :=
  match decodeHex s with
  | some bs => if bs.length = 20 then some bs else none
  | none => none

/-- Function `encodeAddressPacked`: a byte array is converted to a byte slice, a
string is parsed as a textual address; the raw bytes are returned with no
padding. -/
def encodeAddressPacked (v : Val) : EncResult :=
  match v with
  | .fixedBytes bs => .ok bs
  | .addr bs => .ok bs
  | .func bs => .ok bs
  | .bytes bs => .ok bs
  | .str s =>
    match addrUnmarshalText s with
    | some bs => .ok bs
    | none => .err
  | _ => .crash

/-- Function `encodeBytesPacked`: a byte array is converted to a byte slice, a string
is hex-decoded; the raw bytes are returned unpadded. -/
def encodeBytesPacked (v : Val) : EncResult :=
  match v with
  | .fixedBytes bs => .ok bs
  | .addr bs => .ok bs
  | .func bs => .ok bs
  | .bytes bs => .ok bs
  | .str s =>
    match decodeHex s with
    | some bs => .ok bs
    | none => .err
  | _ => .crash

/-- UTF-8 bytes of a string (`[]byte(s)`). -/
def stringBytes (s : String) : List Nat :=
  (String.toUTF8 s).toList.map (fun b => b.toNat)

/-- Function `encodeStringPacked`: raw UTF-8 bytes, unprefixed. -/
def encodeStringPacked (v : Val) : EncResult :=
  match v with
  | .str s => .ok (stringBytes s)
  | _ => .err

/-- Reflect-kind classification for `encodeSliceAndArrayPacked`: the shapes
Go's `reflect` reports as `Array` or `Slice`, with `true` for `Array` and
the element values (`[N]byte`, `ethgo.Address` and `[24]byte` are byte
arrays, `[]byte` a byte slice). -/
def seqElems : Val → Option (Bool × List Val)
  | .list vs => some (false, vs)
  | .arr vs => some (true, vs)
  | .bytes bs => some (false, bs.map (Val.goUint 8))
  | .fixedBytes bs => some (true, bs.map (Val.goUint 8))
  | .addr bs => some (true, bs.map (Val.goUint 8))
  | .func bs => some (true, bs.map (Val.goUint 8))
  | _ => none

mutual

/-- Function `encodePacked`: dispatch on the declared kind (`EncodePacked` is the
exported entry and calls this). -/
def encodePacked (v : Val) (t : Ty) : EncResult :=
  match t with
  | .slice elem => encodeSliceAndArrayPacked v (.slice elem)
  | .array n elem => encodeSliceAndArrayPacked v (.array n elem)
  | .tuple fields => encodeTuplePacked v fields
  | .str => encodeStringPacked v
  | .bool => encodeBoolPacked v
  | .address => encodeAddressPacked v
  | .int w => encodeNumPacked v (.int w)
  | .uint w => encodeNumPacked v (.uint w)
  | .bytes => encodeBytesPacked v
  | .fixedBytes n => encodeFixedBytesPacked v (.fixedBytes n)
  | .function => encodeFixedBytesPacked v .function
termination_by (sizeOf t, 2)

/-- Function `encodeSliceAndArrayPacked`: the value must be a Go array or slice whose
reflect kind matches the declared kind; a fixed array additionally requires
the declared size to equal the runtime length; the element encodings are
concatenated with no separators. -/
def encodeSliceAndArrayPacked (v : Val) (t : Ty) : EncResult :=
  match seqElems v with
  | none => .err
  | some (isGoArray, vs) =>
    match t with
    | .array n elem =>
      if ¬ isGoArray then .err
      else if ¬ (n = vs.length) then .err
      else encodeElems elem vs
    | .slice elem =>
      if isGoArray then .err
      else encodeElems elem vs
    | _ => .err
termination_by (sizeOf t, 1)

/-- Element loop shared by slice and array encoding: encode each element
against the element type and append. -/
def encodeElems (elem : Ty) (vs : List Val) : EncResult :=
  match vs with
  | [] => .ok []
  | v :: rest =>
    match encodePacked v elem with
    | .ok bs =>
      match encodeElems elem rest with
      | .ok bs2 => .ok (bs ++ bs2)
      | r => r
    | r => r
termination_by (sizeOf elem, vs.length + 3)

/-- Function `encodeTuplePacked`: the input is an ordered sequence or a keyed map (a
struct is converted to a map by `mapFromStruct` and arrives as `Val.map`);
its length must be at least the descriptor's field count; fields are then
resolved in descriptor order. -/
def encodeTuplePacked (v : Val) (fields : List (String × Ty)) : EncResult :=
  match v with
  | .list vs =>
    if vs.length < fields.length then .err else encodeTupleList fields vs 0
  | .arr vs =>
    if vs.length < fields.length then .err else encodeTupleList fields vs 0
  | .map kvs =>
    if kvs.length < fields.length then .err else encodeTupleMap fields kvs 0
  | _ => .err
termination_by (sizeOf fields, 1)

/-- Descriptor-order field loop for ordered tuple input: field `i` is
`v.Index(i)` (in range because the length was checked; an out-of-range
index would be a Go runtime panic). -/
def encodeTupleList (fields : List (String × Ty)) (vs : List Val) (i : Nat) : EncResult :=
  match fields with
  | [] => .ok []
  | (_, ty) :: rest =>
    match vs[i]? with
    | none => .crash
    | some a =>
      match encodePacked a ty with
      | .ok bs =>
        match encodeTupleList rest vs (i + 1) with
        | .ok bs2 => .ok (bs ++ bs2)
        | r => r
      | r => r
termination_by (sizeOf fields, 0)

/-- Descriptor-order field loop for keyed tuple input: field `i` is looked
up under its declared name, or under the stringified index when the name is
empty; a missing key is an error (`cannot get key`). -/
def encodeTupleMap (fields : List (String × Ty)) (kvs : List (String × Val)) (i : Nat) : EncResult :=
  match fields with
  | [] => .ok []
  | (name, ty) :: rest =>
    let key := if name = "" then toString i else name
    match kvs.lookup key with
    | none => .err
    | some a =>
      match encodePacked a ty with
      | .ok bs =>
        match encodeTupleMap rest kvs (i + 1) with
        | .ok bs2 => .ok (bs ++ bs2)
        | r => r
      | r => r
termination_by (sizeOf fields, 0)

end

/-- Function `EncodePacked`: the exported encoder entry. -/
def EncodePacked (v : Val) (t : Ty) : EncResult := encodePacked v t

/-- Decode-side error outcomes (messages elided); the last two constructors
model Go runtime panics rather than returned errors. -/
inductive DecErr where
  | emptyInput
  | requiredLength
  | sizeTooBig
  | badBool
  | addrLen
  | repeatedTuple
  | divideByZero
  | indexOutOfRange
deriving DecidableEq

/-- The first switch of `decodePacked`: the byte length the kind consumes
from the front of the buffer (`length`): dynamic kinds take the entire
remaining buffer, Bool one byte, Int/UInt `Size()/8` bytes, every other
kind `Size()` bytes. -/
def decodeLength (t : Ty) (input : List Nat) : Nat :=
  match t with
  | .slice _ => input.length
  | .bytes => input.length
  | .str => input.length
  | .bool => 1
  | .int w => w / 8
  | .uint w => w / 8
  | _ => t.tSize

/-- Function `readAddrPacked`: exactly 20 bytes. -/
def readAddrPacked (b : List Nat) : Except DecErr Val :=
  if b.length = 20 then .ok (.addr b) else .error .addrLen

/-- Function `decodeBoolPacked`: the byte must be 0 or 1 (`data[0]`; the caller
always passes a one-byte slice, so the empty case is Go's index panic). -/
def decodeBoolPacked (data : List Nat) : Except DecErr Val :=
  match data with
  | 0 :: _ => .ok (.bool false)
  | 1 :: _ => .ok (.bool true)
  | _ :: _ => .error .badBool
  | [] => .error .indexOutOfRange

/-- Big-endian value of a byte string (`binary.BigEndian.UintNN` /
`big.Int.SetBytes`; the callers pass exactly `Size()/8` bytes). -/
def fromBytesBE (b : List Nat) : Nat :=
  b.foldl (fun acc x => acc * 256 + x) 0

/-- Package-level constant `maxUint256 = 2^256 - 1` from the repository's
shared helpers. -/
def maxUint256 : Int := 2 ^ 256 - 1

/-- Package-level constant `maxInt256 = 2^255 - 1` from the repository's
shared helpers. -/
def maxInt256 : Int := 2 ^ 255 - 1

/-- Go's conversion of an unsigned value to a signed fixed-width integer
(`int8(b[0])`, `int16(binary.BigEndian.Uint16(b))`, ...). -/
def goIntCast (w : Nat) (n : Nat) : Int :=
  if n < 2 ^ (w - 1) then (n : Int) else (n : Int) - 2 ^ w

/-- Function `readIntegerPacked`: dispatch on the descriptor's native Go type — the
widths 8/16/32/64 map to the native fixed-width Go integers, every other
width to `*big.Int`.  In the big-integer case a signed type whose magnitude
exceeds `maxInt256` is adjusted by `ret = -(maxUint256 - ret + 1)`, i.e.
reduced by 2^256. -/
def readIntegerPacked (t : Ty) (b : List Nat) : Val :=
  match t with
  | .uint 8 => .goUint 8 (b.headD 0)
  | .uint 16 => .goUint 16 (fromBytesBE b)
  | .uint 32 => .goUint 32 (fromBytesBE b)
  | .uint 64 => .goUint 64 (fromBytesBE b)
  | .int 8 => .goInt 8 (goIntCast 8 (b.headD 0))
  | .int 16 => .goInt 16 (goIntCast 16 (fromBytesBE b))
  | .int 32 => .goInt 32 (goIntCast 32 (fromBytesBE b))
  | .int 64 => .goInt 64 (goIntCast 64 (fromBytesBE b))
  | t =>
    let ret : Int := (fromBytesBE b : Nat)
    match t with
    | .uint _ => .bigInt ret
    | _ => if maxInt256 < ret then .bigInt (-(maxUint256 - ret + 1)) else .bigInt ret

/-- Go's `string(bs)` conversion: UTF-8 decoding of a byte string, modelled bytewise (the
two agree on ASCII content). -/
def stringFromBytes (bs : List Nat) : String :=
  String.mk (bs.map Char.ofNat)

mutual

/-- Function `decodePacked`: check that the buffer holds the kind's required length,
then dispatch.  Scalar kinds consume `length` bytes from the front and
return the rest as the remainder. -/
def decodePacked (t : Ty) (input : List Nat) : Except DecErr (Val × List Nat) :=
  let length := decodeLength t input
  if input.length < length then .error .requiredLength
  else
    match t with
    | .tuple fields =>
      match decodeTupleFields fields 0 [] input with
      | .ok (res, rest) => .ok (.map res, rest)
      | .error e => .error e
    | .slice elem =>
      let eSize0 := elem.tSize
      let eSize1 := if eSize0 = 0 then length else eSize0
      let eSize : Nat :=
        match elem with
        | .int _ => eSize1 / 8
        | .uint _ => eSize1 / 8
        | _ => eSize1
      if eSize = 0 then .error .divideByZero
      else decodeArraySlicePacked elem input (length / eSize)
    | .array n elem => decodeArraySlicePacked elem input n
    | .bool =>
      match decodeBoolPacked (input.take length) with
      | .ok v => .ok (v, input.drop length)
      | .error e => .error e
    | .int w => .ok (readIntegerPacked (.int w) (input.take length), input.drop length)
    | .uint w => .ok (readIntegerPacked (.uint w) (input.take length), input.drop length)
    | .str => .ok (.str (stringFromBytes input), input.drop length)
    | .bytes => .ok (.bytes input, input.drop length)
    | .address =>
      match readAddrPacked (input.take length) with
      | .ok v => .ok (v, input.drop length)
      | .error e => .error e
    | .fixedBytes _ => .ok (.fixedBytes (input.take length), input.drop length)
    | .function => .ok (.func (input.take length), input.drop length)
termination_by (sizeOf t, 2)

/-- Function `decodeArraySlicePacked`: pre-check `Elem().Size()/8 * size` against the
buffer (the source also rejects a negative `size`, unrepresentable here),
then decode `size` elements in order, each consuming its own prefix. -/
def decodeArraySlicePacked (elem : Ty) (data : List Nat) (size : Nat) :
    Except DecErr (Val × List Nat) :=
  if elem.tSize / 8 * size > data.length then .error .sizeTooBig
  else
    match decodeElems elem size data with
    | .ok (vs, rest) => .ok (.list vs, rest)
    | .error e => .error e
termination_by (sizeOf elem, size + 3)

/-- Element loop of `decodeArraySlicePacked`. -/
def decodeElems (elem : Ty) (n : Nat) (data : List Nat) :
    Except DecErr (List Val × List Nat) :=
  match n with
  | 0 => .ok ([], data)
  | m + 1 =>
    match decodePacked elem data with
    | .error e => .error e
    | .ok (v, tail) =>
      match decodeElems elem m tail with
      | .ok (vs, rest) => .ok (v :: vs, rest)
      | .error e => .error e
termination_by (sizeOf elem, n + 2)

/-- Function `decodeTuplePacked`: decode each declared field in order against
successive remainders, keying the result map by the field name or the
stringified index, and failing on a repeated key. -/
def decodeTupleFields (fields : List (String × Ty)) (indx : Nat)
    (res : List (String × Val)) (data : List Nat) :
    Except DecErr (List (String × Val) × List Nat) :=
  match fields with
  | [] => .ok (res, data)
  | (argName, ty) :: rest =>
    match decodePacked ty data with
    | .error e => .error e
    | .ok (val, tail) =>
      let name := if argName = "" then toString indx else argName
      match res.lookup name with
      | some _ => .error .repeatedTuple
      | none => decodeTupleFields rest (indx + 1) (res ++ [(name, val)]) tail
termination_by (sizeOf fields, 0)

end

/-- Function `DecodePacked`: the exported decoder entry; rejects an empty buffer and
discards the unconsumed remainder of a successful inner decode. -/
def DecodePacked (t : Ty) (input : List Nat) : Except DecErr Val :=
  if input.length = 0 then .error .emptyInput
  else
    match decodePacked t input with
    | .ok (val, _) => .ok val
    | .error e => .error e

mutual

/-- The spec's required prefix length by kind (spec section 4.2): Bool 1,
Int/UInt W/8, Address 20, Function 24, FixedBytes its declared byte length,
Array the declared element count times the element prefix, Tuple the sum of
its field prefixes, and 0 for the dynamic kinds (they take the entire
remaining buffer, so no minimum is required). -/
def specPrefixLen : Ty → Nat
  | .bool => 1
  | .int w => w / 8
  | .uint w => w / 8
  | .address => 20
  | .function => 24
  | .fixedBytes n => n
  | .array n elem => n * specPrefixLen elem
  | .tuple fields => fieldsPrefixLen fields
  | .slice _ => 0
  | .bytes => 0
  | .str => 0

/-- Sum of the spec's required prefix lengths over tuple fields. -/
def fieldsPrefixLen : List (String × Ty) → Nat
  | [] => 0
  | (_, ty) :: rest => specPrefixLen ty + fieldsPrefixLen rest

end

/-- Helper: when an error-guarded expression evaluated to a success, the
guard was not taken. -/
theorem ite_error_ok {γ α : Type} {c : Prop} [Decidable c] {e : γ} {x : Except γ α} {r : α}
    (h : (if c then Except.error e else x) = .ok r) : x = .ok r := by
  split at h
  · exact absurd h (by simp)
  · exact h

mutual

/-- A successful decode consumes at least the spec's required prefix length
of the buffer. -/
theorem decodePacked_consumes : ∀ (t : Ty) (input : List Nat) (v : Val) (rest : List Nat),
    decodePacked t input = .ok (v, rest) → rest.length + specPrefixLen t ≤ input.length
  | .slice elem, input, v, rest, h => by
    simp only [decodePacked, decodeLength] at h
    have h2 := ite_error_ok (ite_error_ok h)
    have hc := decodeArraySlicePacked_consumes elem input _ v rest h2
    simp only [specPrefixLen]
    omega
  | .array n elem, input, v, rest, h => by
    simp only [decodePacked, decodeLength, Ty.tSize] at h
    have h2 := ite_error_ok h
    have hc := decodeArraySlicePacked_consumes elem input n v rest h2
    simpa [specPrefixLen] using hc
  | .tuple fields, input, v, rest, h => by
    simp only [decodePacked, decodeLength, Ty.tSize] at h
    have h2 := ite_error_ok h
    cases hdt : decodeTupleFields fields 0 [] input with
    | error e => simp [hdt] at h2
    | ok p =>
      obtain ⟨res, rest2⟩ := p
      simp only [hdt, Except.ok.injEq, Prod.mk.injEq] at h2
      obtain ⟨hv, hr⟩ := h2
      have hc := decodeTupleFields_consumes fields 0 [] input _ _ hdt
      subst hr
      simp only [specPrefixLen]
      omega
  | .str, input, v, rest, h => by
    simp only [decodePacked, decodeLength] at h
    have h2 := ite_error_ok h
    simp only [Except.ok.injEq, Prod.mk.injEq] at h2
    obtain ⟨hv, hr⟩ := h2
    simp [specPrefixLen, ← hr]
  | .bool, input, v, rest, h => by
    simp only [decodePacked, decodeLength] at h
    split at h
    · simp at h
    · rename_i hge
      cases hb : decodeBoolPacked (input.take 1) with
      | error e => simp [hb] at h
      | ok v2 =>
        simp only [hb, Except.ok.injEq, Prod.mk.injEq] at h
        obtain ⟨hv, hr⟩ := h
        simp only [specPrefixLen, ← hr, List.length_drop]
        omega
  | .address, input, v, rest, h => by
    simp only [decodePacked, decodeLength, Ty.tSize] at h
    split at h
    · simp at h
    · rename_i hge
      cases hra : readAddrPacked (input.take 20) with
      | error e => simp [hra] at h
      | ok v2 =>
        simp only [hra, Except.ok.injEq, Prod.mk.injEq] at h
        obtain ⟨hv, hr⟩ := h
        simp only [specPrefixLen, ← hr, List.length_drop]
        omega
  | .int w, input, v, rest, h => by
    simp only [decodePacked, decodeLength] at h
    split at h
    · simp at h
    · rename_i hge
      simp only [Except.ok.injEq, Prod.mk.injEq] at h
      obtain ⟨hv, hr⟩ := h
      simp only [specPrefixLen, ← hr, List.length_drop]
      omega
  | .uint w, input, v, rest, h => by
    simp only [decodePacked, decodeLength] at h
    split at h
    · simp at h
    · rename_i hge
      simp only [Except.ok.injEq, Prod.mk.injEq] at h
      obtain ⟨hv, hr⟩ := h
      simp only [specPrefixLen, ← hr, List.length_drop]
      omega
  | .bytes, input, v, rest, h => by
    simp only [decodePacked, decodeLength] at h
    have h2 := ite_error_ok h
    simp only [Except.ok.injEq, Prod.mk.injEq] at h2
    obtain ⟨hv, hr⟩ := h2
    simp [specPrefixLen, ← hr]
  | .fixedBytes n, input, v, rest, h => by
    simp only [decodePacked, decodeLength, Ty.tSize] at h
    split at h
    · simp at h
    · rename_i hge
      simp only [Except.ok.injEq, Prod.mk.injEq] at h
      obtain ⟨hv, hr⟩ := h
      simp only [specPrefixLen, ← hr, List.length_drop]
      omega
  | .function, input, v, rest, h => by
    simp only [decodePacked, decodeLength, Ty.tSize] at h
    split at h
    · simp at h
    · rename_i hge
      simp only [Except.ok.injEq, Prod.mk.injEq] at h
      obtain ⟨hv, hr⟩ := h
      simp only [specPrefixLen, ← hr, List.length_drop]
      omega
termination_by t _ _ _ _ => (sizeOf t, 2)

/-- A successful array/slice element loop consumes at least `size` times
the element's required prefix length. -/
theorem decodeArraySlicePacked_consumes (elem : Ty) (data : List Nat) (size : Nat)
    (v : Val) (rest : List Nat)
    (h : decodeArraySlicePacked elem data size = .ok (v, rest)) :
    rest.length + size * specPrefixLen elem ≤ data.length := by
  simp only [decodeArraySlicePacked] at h
  split at h
  · simp at h
  · cases hde : decodeElems elem size data with
    | error e => simp [hde] at h
    | ok p =>
      obtain ⟨vs, rest2⟩ := p
      simp only [hde, Except.ok.injEq, Prod.mk.injEq] at h
      obtain ⟨hv, hr⟩ := h
      subst hr
      exact decodeElems_consumes elem size data _ _ hde
termination_by (sizeOf elem, size + 3)

/-- Each successfully decoded element consumes at least the element type's
required prefix length. -/
theorem decodeElems_consumes : ∀ (elem : Ty) (n : Nat) (data : List Nat)
    (vs : List Val) (rest : List Nat),
    decodeElems elem n data = .ok (vs, rest) →
    rest.length + n * specPrefixLen elem ≤ data.length
  | elem, 0, data, vs, rest, h => by
    simp only [decodeElems, Except.ok.injEq, Prod.mk.injEq] at h
    obtain ⟨hv, hr⟩ := h
    simp [← hr]
  | elem, m + 1, data, vs, rest, h => by
    simp only [decodeElems] at h
    cases hdp : decodePacked elem data with
    | error e => simp [hdp] at h
    | ok p =>
      obtain ⟨v1, tail⟩ := p
      simp only [hdp] at h
      cases hde : decodeElems elem m tail with
      | error e => simp [hde] at h
      | ok q =>
        obtain ⟨vs2, rest2⟩ := q
        simp only [hde, Except.ok.injEq, Prod.mk.injEq] at h
        obtain ⟨hv, hr⟩ := h
        subst hr
        have hc1 := decodePacked_consumes elem data v1 tail hdp
        have hc2 := decodeElems_consumes elem m tail _ _ hde
        have hmul : (m + 1) * specPrefixLen elem = m * specPrefixLen elem + specPrefixLen elem := by
          ring
        omega
termination_by elem n _ _ _ _ => (sizeOf elem, n + 2)

/-- A successful tuple decode consumes at least the sum of the fields'
required prefix lengths. -/
theorem decodeTupleFields_consumes : ∀ (fields : List (String × Ty)) (indx : Nat)
    (res : List (String × Val)) (data : List Nat)
    (out : List (String × Val)) (rest : List Nat),
    decodeTupleFields fields indx res data = .ok (out, rest) →
    rest.length + fieldsPrefixLen fields ≤ data.length
  | [], indx, res, data, out, rest, h => by
    simp only [decodeTupleFields, Except.ok.injEq, Prod.mk.injEq] at h
    obtain ⟨hv, hr⟩ := h
    simp [fieldsPrefixLen, ← hr]
  | (argName, ty) :: fs, indx, res, data, out, rest, h => by
    simp only [decodeTupleFields] at h
    cases hdp : decodePacked ty data with
    | error e => simp [hdp] at h
    | ok p =>
      obtain ⟨val, tail⟩ := p
      simp only [hdp] at h
      cases hlk : List.lookup (if argName = "" then toString indx else argName) res with
      | some w => simp [hlk] at h
      | none =>
        simp only [hlk] at h
        have hc1 := decodePacked_consumes ty data val tail hdp
        have hc2 := decodeTupleFields_consumes fs (indx + 1) _ tail out rest h
        simp only [fieldsPrefixLen]
        omega
termination_by fields _ _ _ _ _ _ => (sizeOf fields, 0)

end

/-- Unfolding step: dispatch of the tuple kind. -/
theorem encodePacked_tuple (v : Val) (fields : List (String × Ty)) :
    encodePacked v (.tuple fields) = encodeTuplePacked v fields := by
  rw [encodePacked]

/-- Unfolding step: tuple encoding from a keyed map. -/
theorem encodeTuplePacked_map (kvs : List (String × Val)) (fields : List (String × Ty)) :
    encodeTuplePacked (.map kvs) fields =
      if kvs.length < fields.length then .err else encodeTupleMap fields kvs 0 := by
  rw [encodeTuplePacked]

/-- Unfolding step: tuple encoding from an ordered sequence. -/
theorem encodeTuplePacked_list (vs : List Val) (fields : List (String × Ty)) :
    encodeTuplePacked (.list vs) fields =
      if vs.length < fields.length then .err else encodeTupleList fields vs 0 := by
  rw [encodeTuplePacked]

/-- Unfolding step: keyed field loop, empty descriptor. -/
theorem encodeTupleMap_nil (kvs : List (String × Val)) (i : Nat) :
    encodeTupleMap [] kvs i = .ok [] := by
  rw [encodeTupleMap]

/-- Unfolding step: keyed field loop, resolved field with successful
encoding and successful remaining fields. -/
theorem encodeTupleMap_cons_ok {name : String} {ty : Ty} {rest : List (String × Ty)}
    {kvs : List (String × Val)} {i : Nat} {a : Val} {bs bs2 : List Nat}
    (hl : List.lookup (if name = "" then toString i else name) kvs = some a)
    (he : encodePacked a ty = .ok bs)
    (hrest : encodeTupleMap rest kvs (i + 1) = .ok bs2) :
    encodeTupleMap ((name, ty) :: rest) kvs i = .ok (bs ++ bs2) := by
  rw [encodeTupleMap]
  simp [hl, he, hrest]

/-- Unfolding step: keyed field loop, resolved field whose remaining fields
fail. -/
theorem encodeTupleMap_cons_ok_err {name : String} {ty : Ty} {rest : List (String × Ty)}
    {kvs : List (String × Val)} {i : Nat} {a : Val} {bs : List Nat}
    (hl : List.lookup (if name = "" then toString i else name) kvs = some a)
    (he : encodePacked a ty = .ok bs)
    (hrest : encodeTupleMap rest kvs (i + 1) = .err) :
    encodeTupleMap ((name, ty) :: rest) kvs i = .err := by
  rw [encodeTupleMap]
  simp [hl, he, hrest]

/-- Unfolding step: keyed field loop, missing key. -/
theorem encodeTupleMap_cons_missing {name : String} {ty : Ty} {rest : List (String × Ty)}
    {kvs : List (String × Val)} {i : Nat}
    (hl : List.lookup (if name = "" then toString i else name) kvs = none) :
    encodeTupleMap ((name, ty) :: rest) kvs i = .err := by
  rw [encodeTupleMap]
  simp [hl]

/-- Unfolding step: keyed field loop, resolved field, exposing the remaining
computation. -/
theorem encodeTupleMap_cons_some {name : String} {ty : Ty} {rest : List (String × Ty)}
    {kvs : List (String × Val)} {i : Nat} {a : Val}
    (hl : List.lookup (if name = "" then toString i else name) kvs = some a) :
    encodeTupleMap ((name, ty) :: rest) kvs i =
      (match encodePacked a ty with
       | .ok bs =>
         match encodeTupleMap rest kvs (i + 1) with
         | .ok bs2 => .ok (bs ++ bs2)
         | r => r
       | r => r) := by
  rw [encodeTupleMap]
  simp [hl]

/-- Unfolding step: ordered field loop, empty descriptor. -/
theorem encodeTupleList_nil (vs : List Val) (i : Nat) :
    encodeTupleList [] vs i = .ok [] := by
  rw [encodeTupleList]

/-- Unfolding step: ordered field loop, in-range index with successful
encoding and successful remaining fields. -/
theorem encodeTupleList_cons_ok {name : String} {ty : Ty} {rest : List (String × Ty)}
    {vs : List Val} {i : Nat} {a : Val} {bs bs2 : List Nat}
    (hl : vs[i]? = some a)
    (he : encodePacked a ty = .ok bs)
    (hrest : encodeTupleList rest vs (i + 1) = .ok bs2) :
    encodeTupleList ((name, ty) :: rest) vs i = .ok (bs ++ bs2) := by
  rw [encodeTupleList]
  simp [hl, he, hrest]

/-- Lemma: `List.lookup` on a cons cell, in if-then-else form. -/
theorem lookup_cons_eq_if {β : Type} (a : String) (p : String × β) (es : List (String × β)) :
    List.lookup a (p :: es) = if a = p.1 then some p.2 else List.lookup a es := by
  obtain ⟨pk, pv⟩ := p
  by_cases hq : a = pk
  · have hb : (a == pk) = true := beq_iff_eq.mpr hq
    simp [List.lookup, hb, hq]
  · have hb : (a == pk) = false := beq_eq_false_iff_ne.mpr hq
    simp [List.lookup, hb, hq]

/-- Lemma: `List.lookup` only depends on the key-value mapping: on duplicate-free
keys it is invariant under permutation. -/
theorem lookup_eq_of_perm {β : Type} : ∀ (l₁ l₂ : List (String × β)), l₁.Perm l₂ →
    (l₁.map Prod.fst).Nodup → ∀ k : String, l₁.lookup k = l₂.lookup k := by
  intro l₁ l₂ h
  induction h with
  | nil => intro _ _; rfl
  | cons x h ih =>
    intro nd k
    simp only [List.map_cons, List.nodup_cons] at nd
    rw [lookup_cons_eq_if, lookup_cons_eq_if]
    by_cases hk : k = x.1 <;> simp [hk, ih nd.2 k]
  | swap x y l =>
    intro nd k
    simp only [List.map_cons, List.nodup_cons, List.mem_cons, not_or] at nd
    rw [lookup_cons_eq_if, lookup_cons_eq_if, lookup_cons_eq_if, lookup_cons_eq_if]
    by_cases h1 : k = x.1 <;> by_cases h2 : k = y.1
    · exact absurd (h2.symm.trans h1) nd.1.1
    · rw [if_neg h2, if_pos h1]; rw [if_pos h1]
    · rw [if_pos h2, if_neg h1]; rw [if_pos h2]
    · rw [if_neg h1, if_neg h2]; rw [if_neg h1]
  | trans h12 h23 ih1 ih2 =>
    intro nd k
    have nd2 := ((h12.map Prod.fst).nodup_iff).1 nd
    exact (ih1 nd k).trans (ih2 nd2 k)

/-- The keyed field loop only observes the input through `List.lookup`. -/
theorem encodeTupleMap_congr : ∀ (fields : List (String × Ty)) (kvs₁ kvs₂ : List (String × Val))
    (i : Nat), (∀ k, kvs₁.lookup k = kvs₂.lookup k) →
    encodeTupleMap fields kvs₁ i = encodeTupleMap fields kvs₂ i
  | [], kvs₁, kvs₂, i, _ => by
    rw [encodeTupleMap_nil, encodeTupleMap_nil]
  | (name, ty) :: rest, kvs₁, kvs₂, i, hl => by
    have hk := hl (if name = "" then toString i else name)
    cases hx : List.lookup (if name = "" then toString i else name) kvs₁ with
    | none =>
      rw [encodeTupleMap_cons_missing hx, encodeTupleMap_cons_missing (hk.symm.trans hx)]
    | some a =>
      rw [encodeTupleMap_cons_some hx, encodeTupleMap_cons_some (hk.symm.trans hx),
        encodeTupleMap_congr rest kvs₁ kvs₂ (i + 1) hl]

/-- C7: On decode, for every kind, a remaining buffer shorter than the
kind's required prefix length makes the call fail without producing a
value; the top-level entry additionally rejects an empty buffer; in
particular decoding an Address against an empty buffer fails. -/
theorem decode_underrun_fails :
    (∀ (t : Ty) (input : List Nat), input.length < specPrefixLen t →
        ∃ e, decodePacked t input = .error e) ∧
    (∀ t : Ty, DecodePacked t [] = .error .emptyInput) ∧
    DecodePacked .address [] = .error .emptyInput := by
  refine ⟨?_, ?_, ?_⟩
  · intro t input hlt
    cases hres : decodePacked t input with
    | error e => exact ⟨e, rfl⟩
    | ok p =>
      obtain ⟨v, rest⟩ := p
      have hc := decodePacked_consumes t input v rest hres
      omega
  · intro t
    simp [DecodePacked]
  · simp [DecodePacked]

/-- Witness for C7 at concrete inputs: a 2-byte buffer is too short for an
Address (20 bytes required), and the top-level entry rejects the empty
buffer for Bool. -/
theorem decode_underrun_fails_wit :
    (∃ e, decodePacked .address [0, 0] = .error e) ∧
    DecodePacked .bool [] = .error .emptyInput :=
  ⟨decode_underrun_fails.1 .address [0, 0] (by norm_num [specPrefixLen]),
   decode_underrun_fails.2.1 .bool⟩

/-- C10: on a successful inner decode of a nonempty buffer, the top-level
entry returns the value and silently discards the unconsumed remainder;
decoding Bool against a 3-byte buffer consumes one byte and succeeds with
the trailing two bytes dropped. -/
theorem toplevel_discards_remainder :
    (∀ (t : Ty) (input : List Nat) (v : Val) (rest : List Nat),
        0 < input.length → decodePacked t input = .ok (v, rest) →
        DecodePacked t input = .ok v) ∧
    decodePacked .bool [1, 9, 9] = .ok (.bool true, [9, 9]) ∧
    DecodePacked .bool [1, 9, 9] = .ok (.bool true) := by
  refine ⟨?_, ?_, ?_⟩
  · intro t input v rest hpos h
    unfold DecodePacked
    rw [if_neg (by omega), h]
  · simp [decodePacked, decodeLength, decodeBoolPacked]
  · simp [DecodePacked, decodePacked, decodeLength, decodeBoolPacked]

/-- Witness for C10: the general discard statement applied at Bool on the
3-byte buffer. -/
theorem toplevel_discards_remainder_wit :
    DecodePacked .bool [1, 9, 9] = .ok (.bool true) :=
  toplevel_discards_remainder.1 .bool [1, 9, 9] (.bool true) [9, 9] (by norm_num)
    toplevel_discards_remainder.2.1

set_option maxRecDepth 4000 in
/-- Decoding a single unsigned 8-bit element consumes exactly one byte. -/
theorem decodePacked_uint8 (b : Nat) (tl : List Nat) :
    decodePacked (.uint 8) (b :: tl) = .ok (.goUint 8 b, tl) := by
  rw [decodePacked]
  norm_num [decodeLength, readIntegerPacked]

/-- The element loop over unsigned 8-bit elements decodes every byte. -/
theorem decodeElems_uint8 : ∀ l : List Nat,
    decodeElems (.uint 8) l.length l = .ok (l.map (Val.goUint 8), [])
  | [] => by simp [decodeElems]
  | b :: tl => by
    simp [decodeElems, decodePacked_uint8, decodeElems_uint8 tl]

set_option maxRecDepth 10000 in
/-- C3 (counterexample): decoding an unsigned-16-bit slice against a 5-byte
buffer does NOT fail — it succeeds with two elements, the fifth byte left
over and discarded by the top-level entry. -/
theorem slice_nondivisible_succeeds :
    DecodePacked (.slice (.uint 16)) [1, 2, 3, 4, 5] =
      .ok (.list [.goUint 16 258, .goUint 16 772]) := by
  simp [DecodePacked, decodePacked, decodeLength, decodeArraySlicePacked, decodeElems,
    readIntegerPacked, fromBytesBE, Ty.tSize]

set_option maxRecDepth 10000 in
/-- C3 (amended): the element count of a slice decode is the remaining
length divided by the per-element size with truncation — an unsigned-8-bit
slice yields one element per byte, and an unsigned-16-bit slice over a
5-byte buffer succeeds with floor(5/2) = 2 elements, one byte remaining
unconsumed. -/
theorem slice_count_floor :
    (∀ input : List Nat,
        decodePacked (.slice (.uint 8)) input = .ok (.list (input.map (Val.goUint 8)), [])) ∧
    decodePacked (.slice (.uint 16)) [1, 2, 3, 4, 5] =
      .ok (.list [.goUint 16 258, .goUint 16 772], [5]) := by
  constructor
  · intro input
    rw [decodePacked]
    norm_num [decodeLength, Ty.tSize]
    rw [decodeArraySlicePacked]
    norm_num [Ty.tSize]
    simp [decodeElems_uint8 input]
  · simp [decodePacked, decodeLength, decodeArraySlicePacked, decodeElems,
      readIntegerPacked, fromBytesBE, Ty.tSize]

set_option maxRecDepth 100000 in
/-- C4: a signed non-native width applies the two's-complement adjustment
at 2^256 rather than 2^W — the three bytes FF FF FF decode as int24 to
+16777215 instead of -1; the native widths do cast correctly ([FF] as int8
gives -1). -/
theorem int24_decode_not_sign_extended :
    decodePacked (.int 24) [255, 255, 255] = .ok (.bigInt 16777215, []) ∧
    decodePacked (.int 8) [255] = .ok (.goInt 8 (-1), []) := by
  constructor
  · rw [decodePacked]; rfl
  · rw [decodePacked]; rfl

/-- C5 (round-trip failure): encoding `false` against Bool yields the empty
byte string, which the top-level decoder rejects, so
`decode(encode(false, Bool), Bool)` errors instead of reproducing the
value. -/
theorem roundtrip_fails_for_false :
    encodePacked (.bool false) .bool = .ok [] ∧
    DecodePacked .bool [] = .error .emptyInput := by
  constructor
  · rw [encodePacked]; rfl
  · rfl

/-- C1: the arbitrary-precision input shape is reduced modulo 2^256 and
padded to 32 bytes regardless of the declared width — encoding `*big.Int` 1
against uint8 yields 32 bytes, while the native shape of the same value
yields the 1 byte the claim requires. -/
theorem bigint_input_encodes_32_bytes :
    encodeNumPacked (.bigInt 1) (.uint 8) = .ok (List.replicate 31 0 ++ [1]) ∧
    encodeNumPacked (.goUint 64 1) (.uint 8) = .ok [1] := by
  constructor
  · rw [encodeNumPacked]; decide
  · rw [encodeNumPacked]; decide

/-- C2: encoding `true` against Bool yields the single byte 0x01, but
encoding `false` yields the EMPTY byte string (`big.NewInt(0).Bytes()`),
not the single byte 0x00 the claim requires. -/
theorem bool_encoding_bytes :
    encodePacked (.bool false) .bool = .ok [] ∧
    encodePacked (.bool true) .bool = .ok [1] := by
  constructor
  · rw [encodePacked]; rfl
  · rw [encodePacked]; rfl

/-- C9: numeric text that parses neither as decimal nor as hex after the
2-byte drop: a 1-character string panics (Go slices `s[2:]` out of range)
instead of returning an error, as does the empty string; and text like
"abcd" — neither decimal nor 0x-prefixed hex — does not error either: its
first two bytes are dropped and the rest parses as hex (through the
*big.Int path, 32 bytes wide). -/
theorem numeric_text_crashes_or_misparses :
    encodeNumPacked (.str "x") (.uint 8) = .crash ∧
    encodeNumPacked (.str "") (.uint 8) = .crash ∧
    encodeNumPacked (.str "abcd") (.uint 8) = .ok (List.replicate 31 0 ++ [205]) := by
  refine ⟨?_, ?_, ?_⟩
  · rw [encodeNumPacked]; rfl
  · rw [encodeNumPacked]; rfl
  · have h1 : encodeNumPacked (.str "abcd") (.uint 8) = encodeNumPacked (.bigInt 205) (.uint 8) := by
      conv_lhs => rw [encodeNumPacked]
      rfl
    rw [h1, encodeNumPacked]
    decide

/-- C6: tuple encoding requires the input container length to be at least
the descriptor's field count (shorter ordered or keyed input errors, extra
entries are ignored); fields are resolved in descriptor order — positionally
for ordered input, by name for keyed input with the stringified index as
fallback for a nameless field, a missing key being an error — and the
output is the concatenation of the field encodings in descriptor order,
invariant under the input map's iteration order (permutation of its
entries). -/
theorem tuple_encoding_spec :
    (∀ (fields : List (String × Ty)) (vs : List Val), vs.length < fields.length →
        encodePacked (.list vs) (.tuple fields) = .err) ∧
    (∀ (fields : List (String × Ty)) (kvs : List (String × Val)), kvs.length < fields.length →
        encodePacked (.map kvs) (.tuple fields) = .err) ∧
    (∀ (fields : List (String × Ty)) (kvs₁ kvs₂ : List (String × Val)),
        kvs₁.Perm kvs₂ → (kvs₁.map Prod.fst).Nodup →
        encodePacked (.map kvs₁) (.tuple fields) = encodePacked (.map kvs₂) (.tuple fields)) ∧
    encodePacked (.map [("b", .bool true), ("a", .goUint 64 1), ("extra", .bool false)])
        (.tuple [("a", .uint 8), ("b", .bool)]) = .ok [1, 1] ∧
    encodePacked (.list [.goUint 64 1, .bool true])
        (.tuple [("a", .uint 8), ("b", .bool)]) = .ok [1, 1] ∧
    encodePacked (.map [("1", .bool true), ("0", .goUint 64 1)])
        (.tuple [("", .uint 8), ("", .bool)]) = .ok [1, 1] ∧
    encodePacked (.map [("a", .goUint 64 1), ("c", .bool true)])
        (.tuple [("a", .uint 8), ("b", .bool)]) = .err := by
  have ha : encodePacked (.goUint 64 1) (.uint 8) = .ok [1] := by
    rw [encodePacked]
    rw [encodeNumPacked]
    decide
  have hb : encodePacked (.bool true) .bool = .ok [1] := by
    rw [encodePacked]
    rfl
  refine ⟨?_, ?_, ?_, ?_, ?_, ?_, ?_⟩
  · intro fields vs hlen
    rw [encodePacked_tuple, encodeTuplePacked_list, if_pos hlen]
  · intro fields kvs hlen
    rw [encodePacked_tuple, encodeTuplePacked_map, if_pos hlen]
  · intro fields kvs₁ kvs₂ hp nd
    rw [encodePacked_tuple, encodePacked_tuple, encodeTuplePacked_map, encodeTuplePacked_map,
      hp.length_eq]
    split
    · rfl
    · exact encodeTupleMap_congr fields kvs₁ kvs₂ 0
        (fun k => lookup_eq_of_perm kvs₁ kvs₂ hp nd k)
  · rw [encodePacked_tuple, encodeTuplePacked_map, if_neg (by norm_num),
      encodeTupleMap_cons_ok (by rfl) ha
        (encodeTupleMap_cons_ok (by rfl) hb (encodeTupleMap_nil _ _))]
    decide
  · rw [encodePacked_tuple, encodeTuplePacked_list, if_neg (by norm_num),
      encodeTupleList_cons_ok (by rfl) ha
        (encodeTupleList_cons_ok (by rfl) hb (encodeTupleList_nil _ _))]
    decide
  · rw [encodePacked_tuple, encodeTuplePacked_map, if_neg (by norm_num),
      encodeTupleMap_cons_ok (by rfl) ha
        (encodeTupleMap_cons_ok (by rfl) hb (encodeTupleMap_nil _ _))]
    decide
  · rw [encodePacked_tuple, encodeTuplePacked_map, if_neg (by norm_num),
      encodeTupleMap_cons_ok_err (by rfl) ha (encodeTupleMap_cons_missing (by rfl))]

/-- Witness for C6: a too-short ordered input errors, and two insertion
orders of the same keyed input encode identically. -/
theorem tuple_encoding_spec_wit :
    encodePacked (.list []) (.tuple [("a", .uint 8)]) = .err ∧
    encodePacked (.map [("j", .bool false), ("k", .bool true)]) (.tuple [("k", Ty.bool)]) =
      encodePacked (.map [("k", .bool true), ("j", .bool false)]) (.tuple [("k", Ty.bool)]) :=
  ⟨tuple_encoding_spec.1 [("a", .uint 8)] [] (by norm_num),
   tuple_encoding_spec.2.2.1 [("k", Ty.bool)] _ _
     (List.Perm.swap ("k", Val.bool true) ("j", Val.bool false) [])
     (by simp)⟩

/-- Helper: `rightPad` on input no longer than the target appends the zero bytes. -/
theorem rightPad_eq_append (bs : List Nat) (n : Nat) (h : bs.length ≤ n) :
    rightPad bs n = bs ++ List.replicate (n - bs.length) 0 := by
  unfold rightPad
  split
  · rename_i h2
    have hz : n - bs.length = 0 := by omega
    simp [hz]
  · rfl

/-- C8: a FixedBytes or Function value encodes as the input bytes
right-padded with zero bytes to the declared byte length (24 for Function):
in particular the two bytes 01 02 against a 4-byte fixed sequence give
01 02 00 00. -/
theorem fixedbytes_right_pads :
    (∀ (bs : List Nat) (n : Nat), bs.length ≤ n →
        encodePacked (.fixedBytes bs) (.fixedBytes n) =
          .ok (bs ++ List.replicate (n - bs.length) 0)) ∧
    (∀ bs : List Nat, bs.length ≤ 24 →
        encodePacked (.fixedBytes bs) .function =
          .ok (bs ++ List.replicate (24 - bs.length) 0)) ∧
    encodePacked (.fixedBytes [1, 2]) (.fixedBytes 4) = .ok [1, 2, 0, 0] := by
  refine ⟨?_, ?_, ?_⟩
  · intro bs n h
    rw [encodePacked]
    show encodeFixedBytesPacked (.fixedBytes bs) (.fixedBytes n) = _
    rw [encodeFixedBytesPacked]
    simp [Ty.tSize, rightPad_eq_append bs n h]
  · intro bs h
    rw [encodePacked]
    show encodeFixedBytesPacked (.fixedBytes bs) .function = _
    rw [encodeFixedBytesPacked]
    simp [Ty.tSize, rightPad_eq_append bs 24 h]
  · rw [encodePacked]
    rfl

/-- Witness for C8: concrete right-padding through both the FixedBytes and
Function paths. -/
theorem fixedbytes_right_pads_wit :
    encodePacked (.fixedBytes [9]) (.fixedBytes 2) =
      .ok ([9] ++ List.replicate (2 - [9].length) 0) ∧
    encodePacked (.fixedBytes [7]) .function =
      .ok ([7] ++ List.replicate (24 - [7].length) 0) :=
  ⟨fixedbytes_right_pads.1 [9] 2 (by norm_num),
   fixedbytes_right_pads.2.1 [7] (by norm_num)⟩
